/-
Verification development for the ROI synchronization-analysis engine
(`src/core/sync_analyzer.py`).

The engine is shallowly embedded: signal samples and times are modelled as
exact rationals (`ℚ`), peak indices as integers, and the engine's mutable
configuration (`sampling_rate`, `roi_start`, `roi_end`) as an explicit
record that stateful methods take and return.  Standard deviations, which
involve a square root, live in `ℝ` via `Real.sqrt` of an exactly-computed
rational variance.  External SciPy routines used by the engine
(`scipy.signal.detrend`, `butter`+`filtfilt`, `find_peaks`,
`resample_poly`) are not part of the repository; they appear as explicit
function parameters so every theorem quantifies over their behaviour.
NumPy primitives with simple exact semantics (`mean`, `std`, `diff`,
`max`, `min`, `correlate`, `argmax`) are defined directly.  Python's
`int()` truncation and its slice semantics (negative indices counted from
the end) are modelled faithfully.
-/
import Mathlib

/-- Python `int()` applied to a rational: truncation toward zero. -/
def pyTrunc (q : ℚ) : ℤ :=
  if q < 0 then -(Int.floor (-q)) else Int.floor q

/-- Python `round()` applied to a rational: round half to even. -/
def pyRound (q : ℚ) : ℤ :=
  let f := Int.floor q
  if q - f < 1/2 then f
  else if 1/2 < q - f then f + 1
  else if Even f then f else f + 1

/-- Effective index of a Python slice bound for a sequence of length `n`:
a negative bound counts from the end; the result is clamped to `[0, n]`. -/
def pyIndexClamp (n : ℕ) (i : ℤ) : ℕ :=
  if i < 0 then ((n : ℤ) + i).toNat else min i.toNat n

/-- Python slice `l[a:b]` (step 1) with full Python index semantics. -/
def pySlice {α : Type} (l : List α) (a b : ℤ) : List α :=
  (l.take (pyIndexClamp l.length b)).drop (pyIndexClamp l.length a)

/-- NumPy `np.mean` on a rational vector (exact; `0` on the empty vector,
where NumPy would produce `nan`). -/
def npMean (l : List ℚ) : ℚ := l.sum / l.length

/-- NumPy `np.diff`: consecutive differences `l[i+1] - l[i]`. -/
def npDiff (l : List ℚ) : List ℚ := List.zipWith (· - ·) l.tail l

/-- NumPy `np.diff` on an integer vector (peak indices). -/
def npDiffZ (l : List ℤ) : List ℤ := List.zipWith (· - ·) l.tail l

/-- Population variance (`np.var`, `ddof = 0`), computed exactly in `ℚ`. -/
def npVarQ (l : List ℚ) : ℚ := npMean (l.map (fun a => (a - npMean l) ^ 2))

/-- NumPy `np.std` (population): square root of the exact variance. -/
noncomputable def npStd (l : List ℚ) : ℝ := Real.sqrt ((npVarQ l : ℚ) : ℝ)

/-- NumPy `np.max` (`0` on the empty vector, where NumPy would raise). -/
def npMaxQ (l : List ℚ) : ℚ := l.foldl max (l.headD 0)

/-- NumPy `np.min` (`0` on the empty vector, where NumPy would raise). -/
def npMinQ (l : List ℚ) : ℚ := l.foldl min (l.headD 0)

/-- The engine's mutable configuration: `sampling_rate`, `roi_start`,
`roi_end` (the two ROI bounds start out unset). -/
structure SyncAnalyzer where
  sampling_rate : ℚ
  roi_start : Option ℚ
  roi_end : Option ℚ
  deriving Repr, DecidableEq

/-- `SyncAnalyzer.set_sampling_rate`: unconditionally stores `float(fs)`. -/
def set_sampling_rate (st : SyncAnalyzer) (fs : ℚ) : SyncAnalyzer :=
  { st with sampling_rate := fs }

/-- `SyncAnalyzer.set_roi`: raises `ValueError` (modelled as a `some`
message in the second component, with the state unchanged) when
`end_time <= start_time`; otherwise stores both bounds. -/
def set_roi (st : SyncAnalyzer) (start_time end_time : ℚ) :
    SyncAnalyzer × Option String :=
  if end_time ≤ start_time then
    (st, some "ROI end time must be greater than start time")
  else
    ({ st with roi_start := some start_time, roi_end := some end_time }, none)

/-- Body of `SyncAnalyzer.extract_roi` once the ROI bounds are known:
`start_idx = max(0, int(roi_start*fs))`, `end_idx = min(len, int(roi_end*fs))`,
then the Python slice `signal[start_idx:end_idx]`. -/
def roiSliceCore {α : Type} (fs rs re : ℚ) (signal : List α) : List α :=
  pySlice signal (max 0 (pyTrunc (rs * fs)))
    (min (signal.length : ℤ) (pyTrunc (re * fs)))

/-- `SyncAnalyzer.extract_roi`: raises (modelled as `Except.error`) when
either ROI bound is unset, otherwise slices the signal. -/
def extract_roi (st : SyncAnalyzer) (signal : List ℚ) :
    Except String (List ℚ) :=
  match st.roi_start, st.roi_end with
  | some rs, some re => .ok (roiSliceCore st.sampling_rate rs re signal)
  | _, _ => .error "ROI is not configured"

/-- `SyncAnalyzer.align_signals`: truncate both signals to the shorter
length. -/
def align_signals (ppg ecg : List ℚ) : List ℚ × List ℚ :=
  (ppg.take (min ppg.length ecg.length), ecg.take (min ppg.length ecg.length))

/-- `SyncAnalyzer.zscore`: `(x - mean(x)) / (s if s > 1e-12 else 1.0)`
where `s = np.std(x)`. -/
noncomputable def zscore (x : List ℚ) : List ℝ :=
  let s := npStd x
  x.map (fun a => ((a : ℚ) - (npMean x : ℚ)) /
    (if s > 1 / 10 ^ 12 then s else 1))

/-- `SyncAnalyzer.resample_to`: identity (returning the original rate)
when the two rates agree within `1e-6`; otherwise rational-ratio polyphase
resampling through the external `scipy.signal.resample_poly`, abstracted
as the parameter `rp`, at the ratio `round(target_fs)/round(orig_fs)`
reduced by their gcd (Python `//` is floor division). -/
def resample_to (rp : List ℚ → ℤ → ℤ → List ℚ)
    (x : List ℚ) (orig_fs target_fs : ℚ) : List ℚ × ℚ :=
  if |orig_fs - target_fs| < 1 / 10 ^ 6 then (x, orig_fs)
  else
    let up := pyRound target_fs
    let down := pyRound orig_fs
    let g : ℤ := Int.gcd up down
    (rp x (Int.fdiv up g) (Int.fdiv down g), target_fs)

/-- `SyncAnalyzer.detect_ecg_rpeaks`: `find_peaks` (external, abstracted
as `fp`) on the z-scored signal with `distance = int(0.25*fs)` and
`prominence = 1.0`. -/
noncomputable def detect_ecg_rpeaks (fp : List ℝ → ℤ → ℚ → List ℕ)
    (st : SyncAnalyzer) (ecg_f : List ℚ) : List ℕ :=
  fp (zscore ecg_f) (pyTrunc (1/4 * st.sampling_rate)) 1

/-- `SyncAnalyzer.detect_ppg_peaks`: `find_peaks` on the z-scored signal
with `distance = int(0.3*fs)` and `prominence = 0.3`. -/
noncomputable def detect_ppg_peaks (fp : List ℝ → ℤ → ℚ → List ℕ)
    (st : SyncAnalyzer) (ppg_f : List ℚ) : List ℕ :=
  fp (zscore ppg_f) (pyTrunc (3/10 * st.sampling_rate)) (3/10)

/-- `SyncAnalyzer.compute_hr`: `(None, None, None)` on fewer than two
peaks; otherwise RR intervals are consecutive index differences divided
by `fs`, heart rate is `60/mean(rr)` when `mean(rr) > 0` (else `None`),
and the RR mean and population standard deviation are returned. -/
noncomputable def compute_hr (fs : ℚ) (peak_indices : List ℤ) :
    Option ℚ × Option ℚ × Option ℝ :=
  if peak_indices.length < 2 then (none, none, none)
  else
    let rr := (npDiffZ peak_indices).map (fun d => (d : ℚ) / fs)
    let hr := if npMean rr > 0 then some (60 / npMean rr) else none
    (hr, some (npMean rr), some (npStd rr))

/-- The `while j < len(ppg_idx) and ppg_idx[j] < r: j += 1` loop of
`SyncAnalyzer.map_ptt`: advance the cursor `j` past every PPG peak index
smaller than `r`. -/
def advance (ppg_idx : List ℤ) (r : ℤ) (j : ℕ) : ℕ :=
  if h : j < ppg_idx.length then
    if ppg_idx.get ⟨j, h⟩ < r then advance ppg_idx r (j + 1) else j
  else j
termination_by ppg_idx.length - j

/-- The `for r in r_idx` loop of `SyncAnalyzer.map_ptt`, carrying the
cursor `j` across iterations: if the cursor lands on a PPG peak, the
candidate transit time `(ppg_idx[j] - r)/fs` is appended exactly when it
lies strictly inside `(0, 1.5)` seconds. -/
def mapPttLoop (fs : ℚ) (ppg_idx : List ℤ) : List ℤ → ℕ → List ℚ
  | [], _ => []
  | r :: rs, j =>
    let j' := advance ppg_idx r j
    if h : j' < ppg_idx.length then
      let ptt := ((ppg_idx.get ⟨j', h⟩ - r : ℤ) : ℚ) / fs
      if 0 < ptt ∧ ptt < 3/2 then ptt :: mapPttLoop fs ppg_idx rs j'
      else mapPttLoop fs ppg_idx rs j'
    else mapPttLoop fs ppg_idx rs j'

/-- `SyncAnalyzer.map_ptt`: early empty return when either peak train is
empty, otherwise the two-pointer sweep starting at cursor `0`. -/
def map_ptt (fs : ℚ) (r_idx ppg_idx : List ℤ) : List ℚ :=
  if r_idx = [] ∨ ppg_idx = [] then []
  else mapPttLoop fs ppg_idx r_idx 0

/-- Lines 173-174 of the source (inside `analyze_roi`): the PTT mean/SD
are `Some` of the NumPy mean/std exactly when at least one pairing
survived, and `None` otherwise. -/
noncomputable def pttOptionPair (ptts : List ℚ) : Option ℚ × Option ℝ :=
  (if ptts.length ≠ 0 then some (npMean ptts) else none,
   if ptts.length ≠ 0 then some (npStd ptts) else none)

/-- NumPy `np.correlate(a, v, mode='full')`:
`c[k] = Σ_j a[j] * v[j + len(v) - 1 - k]` for `k = 0 .. len(a)+len(v)-2`,
with out-of-range factors read as `0`. -/
def npCorrelateFull (a v : List ℝ) : List ℝ :=
  (List.range (a.length + v.length - 1)).map (fun k =>
    ((List.range a.length).map (fun j =>
      a.getD j 0 *
        (if k ≤ j + v.length - 1 ∧ j + v.length ≥ 1
         then v.getD (j + v.length - 1 - k) 0 else 0))).sum)

/-- NumPy `np.argmax` inner loop: first index attaining the running
maximum. -/
noncomputable def npArgmaxGo : List ℝ → ℕ → ℕ → ℝ → ℕ
  | [], _, best, _ => best
  | a :: as, i, best, bv =>
    if a > bv then npArgmaxGo as (i + 1) i a
    else npArgmaxGo as (i + 1) best bv

/-- NumPy `np.argmax`: index of the first occurrence of the maximum
(`0` on the empty vector, where NumPy would raise). -/
noncomputable def npArgmax : List ℝ → ℕ
  | [] => 0
  | a :: as => npArgmaxGo as 1 0 a

/-- `SyncAnalyzer.delay_by_xcorr`: z-score both signals, take the full
cross-correlation `np.correlate(y0, x0)`, and convert the arg-max lag
(relative to `len(x0) - 1`) to seconds.  On an empty input NumPy raises
(`np.correlate` rejects empty vectors), modelled as `Except.error`. -/
noncomputable def delay_by_xcorr (fs : ℚ) (x y : List ℚ) :
    Except String ℚ :=
  if x.length = 0 ∨ y.length = 0 then .error "correlate of an empty vector"
  else
    .ok (((npArgmax (npCorrelateFull (zscore y) (zscore x)) : ℤ) -
      ((x.length : ℤ) - 1) : ℤ) / fs)

/-- `SyncAnalyzer.compute_sqi`: saturation ratio (fraction of samples
within 1% of the range of either extreme), flatness ratio (fraction of
consecutive differences below `1e-4` in magnitude), and the SNR-like
ratio `var(x) / (mean(|diff(x)|) + 1e-9)`, keyed as in the source. -/
def compute_sqi (x : List ℚ) : List (String × ℚ) :=
  let mx := npMaxQ x
  let mn := npMinQ x
  let rng := mx - mn + 1 / 10 ^ 9
  let sat := npMean (x.map (fun a =>
    if a > mx - rng / 100 ∨ a < mn + rng / 100 then 1 else 0))
  let flat := npMean ((npDiff x).map (fun d =>
    if |d| < 1 / 10 ^ 4 then 1 else 0))
  let snr_like := npVarQ x / (npMean ((npDiff x).map (fun d => |d|)) + 1 / 10 ^ 9)
  [("saturation", sat), ("flatness", flat), ("snr_like", snr_like)]

/-- The `ROIResult` dataclass.  `delay_xcorr_s` is always present; the
per-metric optionals are `none` exactly when the metric degraded. -/
structure ROIResult where
  start_s : ℚ
  end_s : ℚ
  n_samples : ℕ
  fs : ℚ
  hr_bpm : Option ℚ
  rr_mean_s : Option ℚ
  rr_sd_s : Option ℝ
  ptt_mean_s : Option ℚ
  ptt_sd_s : Option ℝ
  delay_xcorr_s : ℚ
  sqi : List (String × ℚ)

/-- `SyncAnalyzer.bandpass`: normalizes the cutoffs to the Nyquist rate
and applies the external Butterworth design + zero-phase `filtfilt`,
abstracted together as the parameter `bf order lowc highc x`. -/
def bandpass (bf : ℕ → ℚ → ℚ → List ℚ → List ℚ) (st : SyncAnalyzer)
    (x : List ℚ) (low high : ℚ) (order : ℕ) : List ℚ :=
  let nyq := st.sampling_rate / 2
  bf order (low / nyq) (high / nyq) x

/-- `SyncAnalyzer.analyze_roi`, in state-passing form (the method never
assigns to `self`, so the returned state is the input state).  External
SciPy routines appear as parameters: `dt` is `scipy.signal.detrend`, `bf`
the Butterworth + `filtfilt` chain, `fpe`/`fpp` the two `find_peaks`
configurations.  After the explicit ROI-configured check the in-method
`extract_roi` calls cannot raise, so the slices are taken directly via
`roiSliceCore` (the body of `extract_roi` for a configured ROI). -/
noncomputable def analyze_roi
    (dt : List ℚ → List ℚ)
    (bf : ℕ → ℚ → ℚ → List ℚ → List ℚ)
    (fpe fpp : List ℝ → ℤ → ℚ → List ℕ)
    (st : SyncAnalyzer) (t ppg ecg : List ℚ)
    (do_detrend : Bool) (filt_mode : String) :
    SyncAnalyzer × Except String ROIResult :=
  match st.roi_start, st.roi_end with
  | some rs, some re =>
    let fs := st.sampling_rate
    let ppg_roi0 := roiSliceCore fs rs re ppg
    let ecg_roi0 := roiSliceCore fs rs re ecg
    let t_roi := roiSliceCore fs rs re t
    let ppg_roi := if do_detrend then dt ppg_roi0 else ppg_roi0
    let ecg_roi := if do_detrend then dt ecg_roi0 else ecg_roi0
    let ef_pf : List ℚ × List ℚ :=
      if filt_mode = "default" ∨ filt_mode = "ppg_ecg" then
        (bandpass bf st ecg_roi 5 15 4, bandpass bf st ppg_roi (1/2) 5 4)
      else if filt_mode = "ppg_only" then
        (ecg_roi, bandpass bf st ppg_roi (1/2) 5 4)
      else if filt_mode = "off" then (ecg_roi, ppg_roi)
      else (ecg_roi, ppg_roi)
    let ecg_f := ef_pf.1
    let ppg_f := ef_pf.2
    let r_idx := detect_ecg_rpeaks fpe st ecg_f
    let ppg_pk := detect_ppg_peaks fpp st ppg_f
    let hr3 := compute_hr fs (r_idx.map Int.ofNat)
    let ptt_arr := map_ptt fs (r_idx.map Int.ofNat) (ppg_pk.map Int.ofNat)
    let pttp := pttOptionPair ptt_arr
    let cut := align_signals ppg_f ecg_f
    match delay_by_xcorr fs cut.2 cut.1 with
    | .error e => (st, .error e)
    | .ok delay_s =>
      (st, .ok {
        start_s := rs
        end_s := re
        n_samples := t_roi.length
        fs := fs
        hr_bpm := hr3.1
        rr_mean_s := hr3.2.1
        rr_sd_s := hr3.2.2
        ptt_mean_s := pttp.1
        ptt_sd_s := pttp.2
        delay_xcorr_s := delay_s
        sqi := compute_sqi ppg_f })
  | _, _ => (st, .error "ROI is not configured")

/-- Specification-side PTT pairing (the amended reading): each R-peak `r`
is paired with the first PPG peak index `p` with `r ≤ p` (searching the
whole ascending PPG train), and the pairing `(p - r)/fs` is kept exactly
when it lies strictly inside `(0, 1.5)` seconds. -/
def pttPairs (fs : ℚ) (ppg_idx : List ℤ) : List ℤ → List ℚ
  | [] => []
  | r :: rs =>
    match ppg_idx.find? (fun p => decide (r ≤ p)) with
    | some p =>
      let ptt := ((p - r : ℤ) : ℚ) / fs
      if 0 < ptt ∧ ptt < 3/2 then ptt :: pttPairs fs ppg_idx rs
      else pttPairs fs ppg_idx rs
    | none => pttPairs fs ppg_idx rs

/-- Specification-side PTT pairing following the claim's words literally:
each R-peak `r` is paired with the first PPG peak index strictly greater
than `r`; acceptance window unchanged. -/
def pttPairsStrict (fs : ℚ) (ppg_idx : List ℤ) : List ℤ → List ℚ
  | [] => []
  | r :: rs =>
    match ppg_idx.find? (fun p => decide (r < p)) with
    | some p =>
      let ptt := ((p - r : ℤ) : ℚ) / fs
      if 0 < ptt ∧ ptt < 3/2 then ptt :: pttPairsStrict fs ppg_idx rs
      else pttPairsStrict fs ppg_idx rs
    | none => pttPairsStrict fs ppg_idx rs

/-- Specification-side `extract_roi` following the claim's words
literally: sample indices are `round_down(time * fs)` (mathematical
floor), the start index is clamped to `0`, the end index to the signal
length, and the result is the sub-sequence of samples at positions
`[start_idx, end_idx)` (empty whenever `end_idx ≤ start_idx`). -/
def extract_roi_claim (st : SyncAnalyzer) (signal : List ℚ) :
    Except String (List ℚ) :=
  match st.roi_start, st.roi_end with
  | some rs, some re =>
    let s : ℤ := max 0 (Int.floor (rs * st.sampling_rate))
    let e : ℤ := min (signal.length : ℤ) (Int.floor (re * st.sampling_rate))
    .ok ((signal.take e.toNat).drop s.toNat)
  | _, _ => .error "ROI is not configured"

/-- Specification-side z-score following the claim's words literally:
`(x - mean(x)) / std(x)` with `std(x)` floored at `1e-12`, i.e. the
divisor is `max (std x) 1e-12`. -/
noncomputable def zscoreFloored (x : List ℚ) : List ℝ :=
  x.map (fun a => ((a : ℚ) - (npMean x : ℚ)) / max (npStd x) (1 / 10 ^ 12))

section BasicLemmas

/-- Evaluating `roiSliceCore` on concrete inputs. -/
theorem roiSliceCore_def {α : Type} (fs rs re : ℚ) (signal : List α) :
    roiSliceCore fs rs re signal =
      pySlice signal (max 0 (pyTrunc (rs * fs)))
        (min (signal.length : ℤ) (pyTrunc (re * fs))) := rfl

end BasicLemmas

/-- C7 counterexample: `set_sampling_rate` applied to the non-positive
rate `-1` does not fail; it stores `-1` as the new sampling rate. -/
theorem set_sampling_rate_counterexample :
    set_sampling_rate ⟨128, none, none⟩ (-1) = ⟨-1, none, none⟩ := rfl

/-- C7 (amended): `set_sampling_rate` unconditionally replaces the stored
sampling rate — for every `fs`, including non-positive values, the call
succeeds, stores `fs`, and leaves the ROI bounds untouched. -/
theorem set_sampling_rate_spec (st : SyncAnalyzer) (fs : ℚ) :
    set_sampling_rate st fs =
      { sampling_rate := fs, roi_start := st.roi_start,
        roi_end := st.roi_end } := rfl

/-- C3: for `end_time ≤ start_time`, `set_roi` fails (raises, modelled as
a `some` error message) and leaves all prior configuration — in
particular any previously stored ROI bounds — unchanged; for
`start_time < end_time` it succeeds and stores both bounds, overwriting
any prior ROI. -/
theorem set_roi_spec (st : SyncAnalyzer) (s e : ℚ) :
    (e ≤ s →
      (set_roi st s e).1 = st ∧
      (set_roi st s e).1.roi_start = st.roi_start ∧
      (set_roi st s e).1.roi_end = st.roi_end ∧
      (set_roi st s e).2.isSome = true) ∧
    (s < e →
      (set_roi st s e).1 =
        { st with roi_start := some s, roi_end := some e } ∧
      (set_roi st s e).2 = none) := by
  constructor
  · intro h
    simp [set_roi, if_pos h]
  · intro h
    have h' : ¬ e ≤ s := not_le.mpr h
    simp [set_roi, if_neg h']

/-- C3 witness: at a concrete prior configuration, `set_roi 5 3` fails
and leaves the stored ROI `(1, 2)` unchanged, while `set_roi 0 1`
succeeds and stores `(0, 1)`. -/
theorem set_roi_spec_witness :
    ((set_roi ⟨128, some 1, some 2⟩ 5 3).1 = ⟨128, some 1, some 2⟩ ∧
      (set_roi ⟨128, some 1, some 2⟩ 5 3).1.roi_start = some 1 ∧
      (set_roi ⟨128, some 1, some 2⟩ 5 3).1.roi_end = some 2 ∧
      (set_roi ⟨128, some 1, some 2⟩ 5 3).2.isSome = true) ∧
    ((set_roi ⟨128, some 1, some 2⟩ 0 1).1 = ⟨128, some 0, some 1⟩ ∧
      (set_roi ⟨128, some 1, some 2⟩ 0 1).2 = none) :=
  ⟨(set_roi_spec ⟨128, some 1, some 2⟩ 5 3).1 (by norm_num),
   (set_roi_spec ⟨128, some 1, some 2⟩ 0 1).2 (by norm_num)⟩

/-- C8: whenever the two rates agree within `1e-6`, `resample_to` is the
identity — it returns the segment unchanged, paired with the original
rate, for every behaviour of the external polyphase resampler `rp`. -/
theorem resample_to_identity (rp : List ℚ → ℤ → ℤ → List ℚ)
    (x : List ℚ) (orig_fs target_fs : ℚ)
    (h : |orig_fs - target_fs| < 1 / 10 ^ 6) :
    resample_to rp x orig_fs target_fs = (x, orig_fs) := by
  unfold resample_to
  rw [if_pos h]

/-- C8 witness: at equal rates `128`/`128` (difference `0 < 1e-6`) the
segment `[1, 2, 3]` is returned unchanged with rate `128`. -/
theorem resample_to_identity_witness :
    resample_to (fun l _ _ => l) [1, 2, 3] 128 128 = ([1, 2, 3], 128) :=
  resample_to_identity (fun l _ _ => l) [1, 2, 3] 128 128 (by norm_num)

/-- The state returned by `analyze_roi` is the input state: the source
method contains no assignment to `self`. -/
theorem analyze_roi_state_eq
    (dt : List ℚ → List ℚ) (bf : ℕ → ℚ → ℚ → List ℚ → List ℚ)
    (fpe fpp : List ℝ → ℤ → ℚ → List ℕ)
    (st : SyncAnalyzer) (t ppg ecg : List ℚ)
    (do_detrend : Bool) (filt_mode : String) :
    (analyze_roi dt bf fpe fpp st t ppg ecg do_detrend filt_mode).1 = st := by
  obtain ⟨fs0, rs0, re0⟩ := st
  unfold analyze_roi
  cases rs0 <;> cases re0 <;> (try rfl) <;> dsimp only <;>
    (repeat' split) <;> rfl

/-- C9: `analyze_roi` never mutates the engine configuration — whether it
returns a result or fails, the returned state's `sampling_rate`,
`roi_start` and `roi_end` equal their values before the call, for every
behaviour of the external SciPy parameters. -/
theorem analyze_roi_frame
    (dt : List ℚ → List ℚ) (bf : ℕ → ℚ → ℚ → List ℚ → List ℚ)
    (fpe fpp : List ℝ → ℤ → ℚ → List ℕ)
    (st : SyncAnalyzer) (t ppg ecg : List ℚ)
    (do_detrend : Bool) (filt_mode : String) :
    (analyze_roi dt bf fpe fpp st t ppg ecg do_detrend filt_mode).1.sampling_rate
        = st.sampling_rate ∧
    (analyze_roi dt bf fpe fpp st t ppg ecg do_detrend filt_mode).1.roi_start
        = st.roi_start ∧
    (analyze_roi dt bf fpe fpp st t ppg ecg do_detrend filt_mode).1.roi_end
        = st.roi_end := by
  rw [analyze_roi_state_eq]
  exact ⟨rfl, rfl, rfl⟩

/-- Dropping `min a n` and dropping `a` agree on any take-prefix of a
list of length `n`. -/
theorem drop_min_take_eq {α : Type} (l : List α) (a e : ℕ)
    (he : e ≤ l.length) :
    (l.take e).drop (min a l.length) = (l.take e).drop a := by
  rcases le_or_lt a l.length with h | h
  · rw [min_eq_left h]
  · rw [min_eq_right h.le]
    rw [List.drop_eq_nil_of_le, List.drop_eq_nil_of_le]
    · calc (l.take e).length ≤ l.length := by
            simpa using List.length_take_le e l
        _ ≤ a := h.le
    · simpa using le_trans (List.length_take_le e l) le_rfl

/-- C4 counterexample: with sampling rate `100` and the valid ROI
`(-2, -0.015)` (accepted by `set_roi` since `-0.015 > -2`), on the
3-sample signal `[1, 2, 3]` the source computes `end_idx = int(-1.5) = -1`
(truncation toward zero) and returns the Python slice `signal[0:-1] =
[1, 2]`, whereas the claim's `round_down` index `⌊-1.5⌋ = -2` with the
clamped sub-sequence `[0, -2)` is empty. -/
theorem extract_roi_counterexample :
    extract_roi ⟨100, some (-2), some (-3/200)⟩ [1, 2, 3] = .ok [1, 2] ∧
    extract_roi_claim ⟨100, some (-2), some (-3/200)⟩ [1, 2, 3] = .ok [] := by
  constructor
  · show Except.ok (roiSliceCore 100 (-2) (-3/200) [1, 2, 3]) = _
    rw [roiSliceCore_def]
    norm_num [pyTrunc, pySlice, pyIndexClamp, show Int.toNat 2 = 2 from rfl]
  · show Except.ok _ = _
    norm_num [extract_roi_claim]

/-- C4 (amended): `extract_roi` fails exactly when the ROI bounds are
unset; otherwise it computes sample indices by Python `int()` truncation
toward zero, clamps the start index to `0` and the end index to the
signal length, and returns the Python slice between them (a negative end
index counts from the end of the signal).  Whenever the truncated end
index is non-negative — in particular for all non-negative ROI times at a
non-negative rate — this is exactly the sub-sequence of samples at
positions `[start_idx, end_idx)`, and on a 1000-sample signal at
`fs = 100` with ROI `(2, 4)` it is exactly the samples `[200:400)`. -/
theorem extract_roi_spec (st : SyncAnalyzer) (sig : List ℚ) :
    ((∃ em, extract_roi st sig = .error em) ↔
      (st.roi_start = none ∨ st.roi_end = none)) ∧
    (∀ rs re : ℚ, st.roi_start = some rs → st.roi_end = some re →
      0 ≤ pyTrunc (re * st.sampling_rate) →
      extract_roi st sig = .ok
        ((sig.take (min (sig.length : ℤ)
            (pyTrunc (re * st.sampling_rate))).toNat).drop
          (max 0 (pyTrunc (rs * st.sampling_rate))).toNat)) ∧
    (sig.length = 1000 →
      extract_roi ⟨100, some 2, some 4⟩ sig = .ok ((sig.take 400).drop 200)) := by
  refine ⟨?_, ?_, ?_⟩
  · rcases hs : st.roi_start with _ | rs <;> rcases he : st.roi_end with _ | re <;>
      simp [extract_roi, hs, he]
  · intro rs re hs he hnn
    have hend : (0 : ℤ) ≤ min (sig.length : ℤ) (pyTrunc (re * st.sampling_rate)) :=
      le_min (by positivity) hnn
    have hendle : min (sig.length : ℤ) (pyTrunc (re * st.sampling_rate)) ≤
        (sig.length : ℤ) := min_le_left _ _
    simp only [extract_roi, hs, he, roiSliceCore_def, pySlice, pyIndexClamp]
    rw [if_neg (by omega), if_neg (by omega)]
    have h1 : min (min (sig.length : ℤ) (pyTrunc (re * st.sampling_rate))).toNat
        sig.length = (min (sig.length : ℤ) (pyTrunc (re * st.sampling_rate))).toNat := by
      omega
    rw [h1]
    rw [drop_min_take_eq]
    omega
  · intro hlen
    have h2 : pyTrunc ((2 : ℚ) * 100) = 200 := by norm_num [pyTrunc]
    have h4 : pyTrunc ((4 : ℚ) * 100) = 400 := by norm_num [pyTrunc]
    simp only [extract_roi, roiSliceCore_def, pySlice, pyIndexClamp, h2, h4, hlen]
    norm_num [show ((0:ℤ) ⊔ 200) = 200 from by norm_num,
      show ((1000:ℤ) ⊓ 400) = 400 from by norm_num,
      show Int.toNat 200 = 200 from rfl, show Int.toNat 400 = 400 from rfl]

/-- C4 witness: a concrete 1000-sample signal with ROI `(2, 4)` at
`fs = 100` yields exactly the samples at positions `[200, 400)`; the
hypotheses of the general conjunct are discharged at the same
configuration. -/
theorem extract_roi_spec_witness :
    extract_roi ⟨100, some 2, some 4⟩ (List.replicate 1000 (7 : ℚ))
      = .ok (((List.replicate 1000 (7 : ℚ)).take 400).drop 200) :=
  (extract_roi_spec ⟨100, some 2, some 4⟩ (List.replicate 1000 (7 : ℚ))).2.2
    (List.length_replicate 1000 7)

/-- The mean of a non-empty constant vector is the constant. -/
theorem npMean_const (x : List ℚ) (c : ℚ) (hne : x ≠ [])
    (hc : ∀ a ∈ x, a = c) : npMean x = c := by
  have hrep : x = List.replicate x.length c :=
    List.eq_replicate.mpr ⟨rfl, hc⟩
  have hlen : (x.length : ℚ) ≠ 0 := by
    have h0 : x.length ≠ 0 := fun h0 => hne (List.length_eq_zero.mp h0)
    exact_mod_cast h0
  rw [npMean]
  rw [show x.sum = (x.length : ℚ) * c by
    conv_lhs => rw [hrep]
    simp [List.sum_replicate, nsmul_eq_mul]]
  field_simp

/-- The population variance of a constant vector is zero. -/
theorem npVarQ_const (x : List ℚ) (c : ℚ) (hc : ∀ a ∈ x, a = c) :
    npVarQ x = 0 := by
  rcases eq_or_ne x [] with h | h
  · subst h; simp [npVarQ, npMean]
  · have hm := npMean_const x c h hc
    have : x.map (fun a => (a - npMean x) ^ 2) =
        List.replicate x.length 0 := by
      apply List.eq_replicate.mpr
      refine ⟨by simp, ?_⟩
      intro b hb
      obtain ⟨a, ha, rfl⟩ := List.mem_map.mp hb
      rw [hm, hc a ha]
      ring
    rw [npVarQ, this]
    simp [npMean, List.sum_replicate]

/-- The standard deviation of a constant vector is zero. -/
theorem npStd_const (x : List ℚ) (c : ℚ) (hc : ∀ a ∈ x, a = c) :
    npStd x = 0 := by
  rw [npStd, npVarQ_const x c hc]
  simp

/-- C6 counterexample: on the non-empty segment `[0, 2e-12]` the standard
deviation is exactly `1e-12`, which the source's guard `s > 1e-12`
rejects, so the source divides by `1.0` and returns `[-1e-12, 1e-12]`;
the claimed divisor `max(std, 1e-12) = 1e-12` would return `[-1, 1]`. -/
theorem zscore_counterexample :
    zscore [0, 2 / 10 ^ 12] = [-(1 / 10 ^ 12 : ℝ), (1 / 10 ^ 12 : ℝ)] ∧
    zscoreFloored [0, 2 / 10 ^ 12] = [-1, 1] := by
  have hm : npMean [0, 2 / 10 ^ 12] = 1 / 10 ^ 12 := by
    norm_num [npMean]
  have hv : npVarQ [0, 2 / 10 ^ 12] = 1 / 10 ^ 24 := by
    norm_num [npVarQ, npMean]
  have hs : npStd [0, 2 / 10 ^ 12] = 1 / 10 ^ 12 := by
    rw [npStd, hv]
    rw [show (((1 : ℚ) / 10 ^ 24 : ℚ) : ℝ) = ((1 : ℝ) / 10 ^ 12) ^ 2 by
      push_cast; norm_num]
    exact Real.sqrt_sq (by norm_num)
  constructor
  · simp only [zscore, hs, hm]
    rw [if_neg (lt_irrefl _)]
    push_cast
    norm_num
  · simp only [zscoreFloored, hs, hm, max_self]
    push_cast
    norm_num

/-- C6 (amended): `zscore` computes `(x - mean(x)) / std(x)` whenever
`std(x) > 1e-12`, and otherwise (in particular on any constant segment,
whose standard deviation is `0`) divides by `1.0`, so a perfectly flat
segment yields `0` everywhere rather than faulting. -/
theorem zscore_spec (x : List ℚ) :
    ((1 / 10 ^ 12 : ℝ) < npStd x →
      zscore x = x.map (fun a => (((a : ℚ) : ℝ) - ((npMean x : ℚ) : ℝ)) / npStd x)) ∧
    (∀ c : ℚ, (∀ a ∈ x, a = c) → zscore x = List.replicate x.length 0) := by
  constructor
  · intro h
    simp only [zscore]
    rw [if_pos h]
  · intro c hc
    rcases eq_or_ne x [] with hne | hne
    · subst hne; simp [zscore]
    · have hs := npStd_const x c hc
      have hm := npMean_const x c hne hc
      simp only [zscore, hs, hm]
      rw [if_neg (by norm_num)]
      apply List.eq_replicate.mpr
      refine ⟨by simp, ?_⟩
      intro b hb
      obtain ⟨a, ha, rfl⟩ := List.mem_map.mp hb
      rw [hc a ha]
      simp

/-- C6 witness: the flat segment `[5, 5, 5]` z-scores to `[0, 0, 0]`. -/
theorem zscore_spec_witness :
    zscore [5, 5, 5] = List.replicate ([5, 5, 5] : List ℚ).length 0 :=
  (zscore_spec [5, 5, 5]).2 5 (by
    intro a ha
    simpa using ha)

/-- C5: `compute_hr` returns all three values absent on fewer than two
peaks; on at least two peaks the RR intervals are the consecutive
index differences divided by `fs`, the heart rate is `60 / mean(RR)`
(absent when `mean(RR) ≤ 0`), and the RR mean and population standard
deviation are reported; concretely, peaks `[0, 128, 256, 384]` at
`fs = 128` give `hr_bpm = 60`, `rr_mean_s = 1`, `rr_sd_s = 0`. -/
theorem compute_hr_spec (fs : ℚ) (peaks : List ℤ) :
    (peaks.length < 2 → compute_hr fs peaks = (none, none, none)) ∧
    (2 ≤ peaks.length →
      compute_hr fs peaks =
        ((if npMean ((npDiffZ peaks).map (fun d => (d : ℚ) / fs)) > 0
          then some (60 / npMean ((npDiffZ peaks).map (fun d => (d : ℚ) / fs)))
          else none),
         some (npMean ((npDiffZ peaks).map (fun d => (d : ℚ) / fs))),
         some (npStd ((npDiffZ peaks).map (fun d => (d : ℚ) / fs))))) ∧
    compute_hr 128 [0, 128, 256, 384] = (some 60, some 1, some 0) := by
  refine ⟨?_, ?_, ?_⟩
  · intro h
    simp only [compute_hr]
    rw [if_pos h]
  · intro h
    simp only [compute_hr]
    rw [if_neg (not_lt.mpr h)]
  · have hrr : (npDiffZ [0, 128, 256, 384]).map (fun d => (d : ℚ) / 128)
        = [1, 1, 1] := by
      norm_num [npDiffZ]
    have hsd : npStd [1, 1, 1] = 0 :=
      npStd_const [1, 1, 1] 1 (by intro a ha; simpa using ha)
    simp only [compute_hr]
    rw [if_neg (by norm_num)]
    simp only [hrr, hsd]
    norm_num [npMean]

/-- C5 witness: the fewer-than-two-peaks conjunct at the singleton train
`[7]`, whose three outputs are all absent. -/
theorem compute_hr_spec_witness :
    compute_hr 128 [7] = (none, none, none) :=
  (compute_hr_spec 128 [7]).1 (by norm_num)

/-- The sum of a 0/1 indicator vector is the count of satisfying
elements. -/
theorem sum_indicator_eq_countP (l : List ℚ) (p : ℚ → Prop)
    [DecidablePred p] :
    (l.map (fun a => if p a then (1 : ℚ) else 0)).sum
      = ((l.countP fun a => decide (p a)) : ℚ) := by
  induction l with
  | nil => simp
  | cons a t ih =>
    by_cases hp : p a <;>
      simp [List.countP_cons, hp, ih] <;> ring

/-- The mean of a 0/1 indicator vector is the satisfying fraction, and
lies in `[0, 1]`. -/
theorem npMean_indicator (l : List ℚ) (p : ℚ → Prop) [DecidablePred p] :
    npMean (l.map (fun a => if p a then (1 : ℚ) else 0))
        = ((l.countP fun a => decide (p a)) : ℚ) / l.length ∧
    0 ≤ npMean (l.map (fun a => if p a then (1 : ℚ) else 0)) ∧
    npMean (l.map (fun a => if p a then (1 : ℚ) else 0)) ≤ 1 := by
  have hval : npMean (l.map (fun a => if p a then (1 : ℚ) else 0))
      = ((l.countP fun a => decide (p a)) : ℚ) / l.length := by
    rw [npMean, sum_indicator_eq_countP, List.length_map]
  refine ⟨hval, ?_, ?_⟩
  · rw [hval]
    positivity
  · rw [hval]
    rcases eq_or_ne l [] with h | h
    · subst h; simp
    · have hlen : (0 : ℚ) < l.length := by
        have h0 : 0 < l.length := List.length_pos.mpr h
        exact_mod_cast h0
      rw [div_le_one hlen]
      exact_mod_cast List.countP_le_length _

/-- C10: for every segment of length at least 2, `compute_sqi` returns a
mapping with exactly the keys `saturation`, `flatness`, `snr_like` in
that order, and the saturation and flatness values are fractions — counts
of samples (respectively consecutive differences) satisfying a decidable
predicate, divided by the relevant length — hence lie in `[0, 1]`. -/
theorem compute_sqi_spec (x : List ℚ) (h : 2 ≤ x.length) :
    (compute_sqi x).map Prod.fst = ["saturation", "flatness", "snr_like"] ∧
    ∃ sat flat snr_like : ℚ,
      compute_sqi x =
        [("saturation", sat), ("flatness", flat), ("snr_like", snr_like)] ∧
      sat = ((x.countP fun a => decide
          (a > npMaxQ x - (npMaxQ x - npMinQ x + 1 / 10 ^ 9) / 100 ∨
           a < npMinQ x + (npMaxQ x - npMinQ x + 1 / 10 ^ 9) / 100)) : ℚ)
        / x.length ∧
      flat = (((npDiff x).countP fun d => decide (|d| < 1 / 10 ^ 4)) : ℚ)
        / (npDiff x).length ∧
      0 ≤ sat ∧ sat ≤ 1 ∧ 0 ≤ flat ∧ flat ≤ 1 := by
  have hsat := npMean_indicator x (fun a =>
    a > npMaxQ x - (npMaxQ x - npMinQ x + 1 / 10 ^ 9) / 100 ∨
    a < npMinQ x + (npMaxQ x - npMinQ x + 1 / 10 ^ 9) / 100)
  have hflat := npMean_indicator (npDiff x) (fun d => |d| < 1 / 10 ^ 4)
  refine ⟨by simp [compute_sqi], ?_⟩
  refine ⟨_, _, _, rfl, ?_, ?_, ?_, ?_, ?_, ?_⟩
  · exact hsat.1
  · exact hflat.1
  · exact hsat.2.1
  · exact hsat.2.2
  · exact hflat.2.1
  · exact hflat.2.2

/-- C10 witness: the segment `[0, 1]` has both samples within 1% of an
extreme (saturation `1`) and one non-flat difference (flatness `0`). -/
theorem compute_sqi_spec_witness :
    (compute_sqi [0, 1]).map Prod.fst =
      ["saturation", "flatness", "snr_like"] ∧
    ∃ sat flat snr_like : ℚ,
      compute_sqi [0, 1] =
        [("saturation", sat), ("flatness", flat), ("snr_like", snr_like)] ∧
      sat = ((([0, 1] : List ℚ).countP fun a => decide
          (a > npMaxQ [0, 1] - (npMaxQ [0, 1] - npMinQ [0, 1] + 1 / 10 ^ 9) / 100 ∨
           a < npMinQ [0, 1] + (npMaxQ [0, 1] - npMinQ [0, 1] + 1 / 10 ^ 9) / 100)) : ℚ)
        / ([0, 1] : List ℚ).length ∧
      flat = (((npDiff [0, 1]).countP fun d => decide (|d| < 1 / 10 ^ 4)) : ℚ)
        / (npDiff [0, 1]).length ∧
      0 ≤ sat ∧ sat ≤ 1 ∧ 0 ≤ flat ∧ flat ≤ 1 :=
  compute_sqi_spec [0, 1] (by norm_num)


/-- List-level restatement of the two-pointer sweep: instead of the
cursor `j` into `ppg_idx`, carry the not-yet-passed suffix of
`ppg_idx`. -/
def mapPttL (fs : ℚ) : List ℤ → List ℤ → List ℚ
  | [], _ => []
  | r :: rs, rem =>
    match rem.dropWhile (fun p => decide (p < r)) with
    | [] => mapPttL fs rs []
    | p :: rest =>
      let ptt := ((p - r : ℤ) : ℚ) / fs
      if 0 < ptt ∧ ptt < 3/2 then ptt :: mapPttL fs rs (p :: rest)
      else mapPttL fs rs (p :: rest)

/-- For integers, the Boolean test `r ≤ p` is the negation of `p < r`. -/
theorem decide_le_eq_not_lt (r p : ℤ) :
    (decide (r ≤ p)) = !(decide (p < r)) := by
  by_cases h : r ≤ p
  · simp [h, not_lt.mpr h]
  · simp [h, not_le.mp h]

/-- The cursor after the advance loop: the old cursor plus the number of
immediately following PPG peaks below `r`. -/
theorem advance_eq (ppg_idx : List ℤ) (r : ℤ) (j : ℕ) :
    advance ppg_idx r j =
      j + ((ppg_idx.drop j).takeWhile (fun p => decide (p < r))).length := by
  have H : ∀ n j, ppg_idx.length - j ≤ n →
      advance ppg_idx r j =
        j + ((ppg_idx.drop j).takeWhile (fun p => decide (p < r))).length := by
    intro n
    induction n with
    | zero =>
      intro j hj
      rw [advance]
      rw [dif_neg (by omega)]
      rw [List.drop_eq_nil_of_le (by omega)]
      simp
    | succ n ih =>
      intro j hj
      rw [advance]
      by_cases h : j < ppg_idx.length
      · rw [dif_pos h]
        have hdj : ppg_idx.drop j = ppg_idx[j] :: ppg_idx.drop (j + 1) :=
          List.drop_eq_getElem_cons h
        by_cases hlt : ppg_idx.get ⟨j, h⟩ < r
        · rw [if_pos hlt, ih (j + 1) (by omega)]
          rw [hdj, List.takeWhile_cons]
          have hlt' : decide (ppg_idx[j] < r) = true := decide_eq_true hlt
          rw [hlt']
          simp only [if_true, List.length_cons]
          omega
        · rw [if_neg hlt]
          rw [hdj, List.takeWhile_cons]
          have hlt' : decide (ppg_idx[j] < r) = false :=
            decide_eq_false hlt
          rw [hlt']
          simp
      · rw [dif_neg h]
        rw [List.drop_eq_nil_of_le (by omega)]
        simp
  exact H (ppg_idx.length - j) j le_rfl

/-- The suffix of the PPG train beyond the advanced cursor is the
`dropWhile` of the current suffix. -/
theorem drop_advance (ppg_idx : List ℤ) (r : ℤ) (j : ℕ) :
    ppg_idx.drop (advance ppg_idx r j) =
      (ppg_idx.drop j).dropWhile (fun p => decide (p < r)) := by
  rw [advance_eq]
  rw [← List.drop_drop]
  nth_rewrite 2 [(List.takeWhile_append_dropWhile
    (fun p => decide (p < r)) (ppg_idx.drop j)).symm]
  exact List.drop_left _ _

/-- The index-carrying sweep computes the list-level sweep on the
corresponding suffix. -/
theorem mapPttLoop_eq (fs : ℚ) (ppg_idx : List ℤ) (rs : List ℤ) :
    ∀ j, mapPttLoop fs ppg_idx rs j = mapPttL fs rs (ppg_idx.drop j) := by
  induction rs with
  | nil => intro j; rfl
  | cons r rs ih =>
    intro j
    rw [mapPttLoop, mapPttL]
    have hdrop := drop_advance ppg_idx r j
    rcases hrem : (ppg_idx.drop j).dropWhile (fun p => decide (p < r)) with
      _ | ⟨p, rest⟩
    · have hnil : ppg_idx.drop (advance ppg_idx r j) = [] := by
        rw [hdrop, hrem]
      have hge : ¬ advance ppg_idx r j < ppg_idx.length := by
        intro hcon
        have := List.drop_eq_nil_iff.mp hnil
        omega
      rw [dif_neg hge]
      rw [ih]
      rw [hnil]
    · have hcons : ppg_idx.drop (advance ppg_idx r j) = p :: rest := by
        rw [hdrop, hrem]
      have hlt : advance ppg_idx r j < ppg_idx.length := by
        by_contra hcon
        rw [List.drop_eq_nil_of_le (by omega)] at hcons
        exact List.noConfusion hcons
      rw [dif_pos hlt]
      have hget : ppg_idx.get ⟨advance ppg_idx r j, hlt⟩ = p := by
        have h2 := List.drop_eq_getElem_cons hlt
        rw [hcons] at h2
        injection h2 with h3 _
        simpa [List.get_eq_getElem] using h3.symm
      rw [hget]
      rw [ih]
      rw [hcons]

/-- Searching for the first element at or above `r` is dropping the
elements below `r` and taking the head. -/
theorem find?_ge_eq_head_dropWhile (r : ℤ) (l : List ℤ) :
    l.find? (fun p => decide (r ≤ p)) =
      (l.dropWhile (fun p => decide (p < r))).head? := by
  have hfn : (fun p : ℤ => decide (r ≤ p)) = fun p => !(decide (p < r)) := by
    funext p
    exact decide_le_eq_not_lt r p
  rw [hfn]
  exact List.find?_not_eq_head?_dropWhile _ l

/-- On an ascending R-peak train, the suffix-consuming sweep agrees with
the specification pairing that searches the whole PPG train for each
R-peak, provided every consumed PPG peak is below all remaining
R-peaks. -/
theorem mapPttL_eq_pttPairs (fs : ℚ) (rs : List ℤ) :
    ∀ pre rem ppg_idx, ppg_idx = pre ++ rem →
      (∀ q ∈ pre, ∀ r ∈ rs, q < r) →
      List.Sorted (· ≤ ·) rs →
      mapPttL fs rs rem = pttPairs fs ppg_idx rs := by
  induction rs with
  | nil => intros; rfl
  | cons r rs ih =>
    intro pre rem ppg hsplit hpre hsort
    have hr_le : ∀ r' ∈ rs, r ≤ r' := (List.sorted_cons.mp hsort).1
    have htail : List.Sorted (· ≤ ·) rs := (List.sorted_cons.mp hsort).2
    have hfind : ppg.find? (fun p => decide (r ≤ p)) =
        (rem.dropWhile (fun p => decide (p < r))).head? := by
      rw [hsplit, List.find?_append]
      have hnone : pre.find? (fun p => decide (r ≤ p)) = none := by
        rw [List.find?_eq_none]
        intro x hx
        simp [not_le.mpr (hpre x hx r (List.mem_cons_self r rs))]
      rw [hnone, Option.none_or]
      exact find?_ge_eq_head_dropWhile r rem
    rw [mapPttL, pttPairs]
    rcases hrem : rem.dropWhile (fun p => decide (p < r)) with _ | ⟨p, rest⟩
    · rw [hrem] at hfind
      rw [hfind]
      apply ih ppg [] ppg (by simp) ?_ htail
      intro q hq r' hr'
      have hrr : r ≤ r' := hr_le r' hr'
      rw [hsplit] at hq
      rcases List.mem_append.mp hq with hq | hq
      · exact lt_of_lt_of_le (hpre q hq r (List.mem_cons_self r rs)) hrr
      · have hq' : q ∈ rem.takeWhile (fun p => decide (p < r)) := by
          have hwhole := List.takeWhile_append_dropWhile
            (fun p => decide (p < r)) rem
          rw [hrem, List.append_nil] at hwhole
          rw [hwhole]
          exact hq
        have := List.mem_takeWhile_imp hq'
        exact lt_of_lt_of_le (by simpa using this) hrr
    · rw [hrem] at hfind
      rw [hfind]
      have hX : mapPttL fs rs (p :: rest) = pttPairs fs ppg rs := by
        apply ih (pre ++ rem.takeWhile (fun p => decide (p < r))) (p :: rest)
          ppg ?_ ?_ htail
        · rw [hsplit, List.append_assoc]
          rw [← hrem]
          rw [List.takeWhile_append_dropWhile]
        · intro q hq r' hr'
          have hrr : r ≤ r' := hr_le r' hr'
          rcases List.mem_append.mp hq with hq | hq
          · exact lt_of_lt_of_le (hpre q hq r (List.mem_cons_self r rs)) hrr
          · have := List.mem_takeWhile_imp hq
            exact lt_of_lt_of_le (by simpa using this) hrr
      simp only [List.head?_cons, hX]

/-- The specification pairing over an empty PPG train is empty. -/
theorem pttPairs_nil (fs : ℚ) (rs : List ℤ) : pttPairs fs [] rs = [] := by
  induction rs with
  | nil => rfl
  | cons r rs ih => rw [pttPairs]; simpa using ih

/-- On an ascending R-peak train, `map_ptt` pairs each R-peak with the
first PPG peak at or above it (over the whole PPG train) and filters by
the `(0, 1.5)` window. -/
theorem map_ptt_eq_pttPairs (fs : ℚ) (r_idx ppg_idx : List ℤ)
    (hsort : List.Sorted (· ≤ ·) r_idx) :
    map_ptt fs r_idx ppg_idx = pttPairs fs ppg_idx r_idx := by
  rw [map_ptt]
  by_cases hg : r_idx = [] ∨ ppg_idx = []
  · rw [if_pos hg]
    rcases hg with h | h
    · subst h; rfl
    · subst h
      exact (pttPairs_nil fs r_idx).symm
  · rw [if_neg hg]
    rw [mapPttLoop_eq]
    rw [List.drop_zero]
    exact mapPttL_eq_pttPairs fs r_idx [] ppg_idx ppg_idx (by simp)
      (by simp) hsort

/-- The per-field absence of the PTT statistics is exactly emptiness of
the accepted-pairing list. -/
theorem pttOptionPair_none_iff (l : List ℚ) :
    ((pttOptionPair l).1 = none ↔ l = []) ∧
    ((pttOptionPair l).2 = none ↔ l = []) := by
  cases l <;> simp [pttOptionPair]

/-- C1 counterexample: with `fs = 100`, ascending R-peaks `[100]` and
ascending PPG peaks `[100, 110]`, the source's cursor stops at the PPG
peak equal to the R-peak (`while ppg_idx[j] < r`), computes `ptt = 0`,
rejects it, and returns no pairing — whereas pairing with the first PPG
peak strictly greater than `r`, as the claim states, would accept
`(110 - 100)/100 = 0.1 s`. -/
theorem map_ptt_counterexample :
    map_ptt 100 [100] [100, 110] = [] ∧
    pttPairsStrict 100 [100, 110] [100] = [1/10] ∧
    List.Sorted (· ≤ ·) ([100] : List ℤ) ∧
    List.Sorted (· < ·) ([100, 110] : List ℤ) := by
  refine ⟨?_, ?_, by simp, by simp [List.sorted_cons]⟩
  · rw [map_ptt_eq_pttPairs 100 [100] [100, 110] (by simp)]
    norm_num [pttPairs, List.find?]
  · norm_num [pttPairsStrict, List.find?]

/-- C1 (amended): for every ascending R-peak train and ascending PPG
peak train, `map_ptt` pairs each R-peak `r` with the first PPG peak
index greater than **or equal to** `r` (an equal index yields `ptt = 0`
and is then discarded by the window), accepts a pairing exactly when
`0 < (ppg_idx - r)/fs < 1.5` seconds, and the PTT mean/SD assembled by
`analyze_roi` are absent if and only if no pairing survives; with
R-peaks `[100]`, PPG peaks `[130]`, `fs = 100` the pairing `0.3 s` is
accepted, and with PPG peaks `[250]` it is rejected and PTT is absent. -/
theorem map_ptt_spec (fs : ℚ) (r_idx ppg_idx : List ℤ)
    (hr : List.Sorted (· ≤ ·) r_idx) (hp : List.Sorted (· < ·) ppg_idx) :
    map_ptt fs r_idx ppg_idx = pttPairs fs ppg_idx r_idx ∧
    ((pttOptionPair (map_ptt fs r_idx ppg_idx)).1 = none ↔
      map_ptt fs r_idx ppg_idx = []) ∧
    ((pttOptionPair (map_ptt fs r_idx ppg_idx)).2 = none ↔
      map_ptt fs r_idx ppg_idx = []) ∧
    map_ptt 100 [100] [130] = [3/10] ∧
    map_ptt 100 [100] [250] = [] ∧
    pttOptionPair (map_ptt 100 [100] [250]) = (none, none) := by
  have h250 : map_ptt 100 [100] [250] = [] := by
    rw [map_ptt_eq_pttPairs 100 [100] [250] (by simp)]
    norm_num [pttPairs, List.find?]
  refine ⟨map_ptt_eq_pttPairs fs r_idx ppg_idx hr,
    (pttOptionPair_none_iff _).1, (pttOptionPair_none_iff _).2, ?_, h250, ?_⟩
  · rw [map_ptt_eq_pttPairs 100 [100] [130] (by simp)]
    norm_num [pttPairs, List.find?]
  · rw [h250]
    simp [pttOptionPair]

/-- C1 witness: the general theorem applied at `fs = 100`, R-peaks
`[100]`, PPG peaks `[130]`, both ascending. -/
theorem map_ptt_spec_witness :
    map_ptt 100 [100] [130] = pttPairs 100 [130] [100] ∧
    ((pttOptionPair (map_ptt 100 [100] [130])).1 = none ↔
      map_ptt 100 [100] [130] = []) ∧
    ((pttOptionPair (map_ptt 100 [100] [130])).2 = none ↔
      map_ptt 100 [100] [130] = []) ∧
    map_ptt 100 [100] [130] = [3/10] ∧
    map_ptt 100 [100] [250] = [] ∧
    pttOptionPair (map_ptt 100 [100] [250]) = (none, none) :=
  map_ptt_spec 100 [100] [130] (by simp) (by simp)

/-- `delay_by_xcorr` cannot raise on two non-empty aligned segments. -/
theorem delay_by_xcorr_ne_error (fs : ℚ) (x y : List ℚ)
    (hx : x.length ≠ 0) (hy : y.length ≠ 0) (e : String) :
    delay_by_xcorr fs x y ≠ .error e := by
  simp only [delay_by_xcorr]
  rw [if_neg (by simp [hx, hy])]
  simp

/-- C2: whenever the ROI is configured and both extracted ROI segments
are non-empty, `analyze_roi` never faults when the two peak detectors
(arbitrary length-preserving external detrend/filter, detectors
returning zero peaks on every input) find nothing: it returns an
`ROIResult` whose `hr_bpm`, `rr_mean_s`, `rr_sd_s`, `ptt_mean_s`,
`ptt_sd_s` are all absent while the delay and the three-key `sqi`
mapping are still populated — no per-metric insufficiency aborts the
call. -/
theorem analyze_roi_no_peaks
    (dt : List ℚ → List ℚ) (bf : ℕ → ℚ → ℚ → List ℚ → List ℚ)
    (fpe fpp : List ℝ → ℤ → ℚ → List ℕ)
    (st : SyncAnalyzer) (t ppg ecg : List ℚ) (dd : Bool) (fm : String)
    (rs re : ℚ) (hs1 : st.roi_start = some rs) (hs2 : st.roi_end = some re)
    (ppgR ecgR : List ℚ)
    (hppg : extract_roi st ppg = .ok ppgR)
    (hecg : extract_roi st ecg = .ok ecgR)
    (hppgne : ppgR ≠ []) (hecgne : ecgR ≠ [])
    (hdt : ∀ l, (dt l).length = l.length)
    (hbf : ∀ o lo hi l, (bf o lo hi l).length = l.length)
    (hfpe : ∀ z d p, fpe z d p = []) (hfpp : ∀ z d p, fpp z d p = []) :
    ∃ r, (analyze_roi dt bf fpe fpp st t ppg ecg dd fm).2 = .ok r ∧
      r.hr_bpm = none ∧ r.rr_mean_s = none ∧ r.rr_sd_s = none ∧
      r.ptt_mean_s = none ∧ r.ptt_sd_s = none ∧
      r.sqi.map Prod.fst = ["saturation", "flatness", "snr_like"] := by
  simp only [extract_roi, hs1, hs2, Except.ok.injEq] at hppg hecg
  have hp0 : ppgR.length ≠ 0 := by
    simpa [List.length_eq_zero] using hppgne
  have he0 : ecgR.length ≠ 0 := by
    simpa [List.length_eq_zero] using hecgne
  simp only [analyze_roi, hs1, hs2]
  repeat' split
  all_goals
    first
      | (rename_i e heq
         exfalso
         revert heq
         apply delay_by_xcorr_ne_error <;>
           (simp only [align_signals, List.length_take, bandpass,
              apply_ite Prod.fst, apply_ite Prod.snd, apply_ite List.length,
              hbf, hdt, hppg, hecg, ite_self]
            omega))
      | (refine ⟨_, rfl, ?_, ?_, ?_, ?_, ?_, ?_⟩ <;>
         simp [detect_ecg_rpeaks, detect_ppg_peaks, hfpe, hfpp,
           compute_hr, map_ptt, pttOptionPair, compute_sqi])

/-- C2 witness: identity detrend/filter, detectors that find no peaks,
ROI `(0, 3)` at `fs = 1` on the 3-sample signals `[1, 2, 3]`. -/
theorem analyze_roi_no_peaks_witness :
    ∃ r, (analyze_roi (fun l => l) (fun _ _ _ l => l) (fun _ _ _ => [])
        (fun _ _ _ => []) ⟨1, some 0, some 3⟩ [1, 2, 3] [1, 2, 3] [1, 2, 3]
        true "default").2 = .ok r ∧
      r.hr_bpm = none ∧ r.rr_mean_s = none ∧ r.rr_sd_s = none ∧
      r.ptt_mean_s = none ∧ r.ptt_sd_s = none ∧
      r.sqi.map Prod.fst = ["saturation", "flatness", "snr_like"] :=
  analyze_roi_no_peaks _ _ _ _ _ _ _ _ _ _ 0 3 rfl rfl [1, 2, 3] [1, 2, 3]
    (by norm_num [extract_roi, roiSliceCore_def, pySlice, pyIndexClamp,
      pyTrunc, show Int.toNat 3 = 3 from rfl])
    (by norm_num [extract_roi, roiSliceCore_def, pySlice, pyIndexClamp,
      pyTrunc, show Int.toNat 3 = 3 from rfl])
    (by simp) (by simp) (fun _ => rfl) (fun _ _ _ _ => rfl)
    (fun _ _ _ => rfl) (fun _ _ _ => rfl)
